import Mathlib

/-!
A shallow embedding of `src/expense_tracker.py` (a personal expense tracker).

The program keeps an ordered list of expense records (date, category, amount,
description), persists them to a CSV file via Python's `csv` module
(`save_expenses` / `load_expenses`), collects new records interactively with
retry-until-valid loops (`add_expense`), and compares the running total
against a user-entered budget (`track_budget`).

Modelling choices:
* a file is a `String` of characters; a possibly-missing file is an
  `Option String` (`none` = the path does not exist, so that `open` raises
  `FileNotFoundError`);
* interactive input is a `List String` of the successive lines the user
  types; a retry loop consumes entries from the front until one validates;
* Python's `float` values are represented by an arbitrary type `A` equipped
  with a printing function (modelling `str(x)`) and a parsing function
  (modelling `float(s)`, with `none` for `ValueError`); for the concrete
  executable instances we use `ℚ`, which is exact on every decimal literal
  appearing in the specification (Python's binary floats are exact on those
  values as well);
* uncaught Python exceptions of `load_expenses` become an `Except` error
  (`StopIteration` from the header skip, `IndexError` from `row[i]` on a
  short row, `ValueError` from `float` on a non-numeric amount field).
-/

/-- One expense record, the dictionary
`{'date': …, 'category': …, 'amount': …, 'description': …}` built by
`add_expense` and `load_expenses`.  `A` is the type used to model the
Python float stored under `'amount'`. -/
structure Record (A : Type) where
  date : String
  category : String
  amount : A
  description : String
  deriving DecidableEq, Repr

/-- Parser states of the CPython `_csv.c` reader automaton (dialect `excel`:
delimiter `,`, quotechar `"`, doublequote on, no escapechar, non-strict).
`afterCR` models the `EAT_CRNL` state: a record was just terminated by a
`\r` and an immediately following `\n` still has to be swallowed. -/
inductive RState where
  | startRec
  | afterCR
  | startField
  | inField
  | inQuoted
  | quoteQuoted
  deriving DecidableEq, Repr

/-- The `csv.reader` automaton of CPython (`parse_process_char` in `_csv.c`)
for the default `excel` dialect, run over the character stream of a file
opened with `newline=''`.  `fld` is the reversed accumulator of the current
field, `row` the reversed accumulator of the current record's finished
fields.  At end of input a pending field/record is flushed exactly as the
`\0`-at-line-end / end-of-iterator handling of `_csv.c` does. -/
def rdGo : RState → List Char → List String → List Char → List (List String)
  | .startRec, _, _, [] => []
  | .afterCR, _, _, [] => []
  | .startField, fld, row, [] => [(String.mk fld.reverse :: row).reverse]
  | .inField, fld, row, [] => [(String.mk fld.reverse :: row).reverse]
  | .inQuoted, fld, row, [] => [(String.mk fld.reverse :: row).reverse]
  | .quoteQuoted, fld, row, [] => [(String.mk fld.reverse :: row).reverse]
  | .startRec, _, _, c :: cs =>
    if c = '\n' then [] :: rdGo .startRec [] [] cs
    else if c = '\r' then [] :: rdGo .afterCR [] [] cs
    else if c = '"' then rdGo .inQuoted [] [] cs
    else if c = ',' then rdGo .startField [] [""] cs
    else rdGo .inField [c] [] cs
  | .afterCR, _, _, c :: cs =>
    if c = '\n' then rdGo .startRec [] [] cs
    else if c = '\r' then [] :: rdGo .afterCR [] [] cs
    else if c = '"' then rdGo .inQuoted [] [] cs
    else if c = ',' then rdGo .startField [] [""] cs
    else rdGo .inField [c] [] cs
  | .startField, _, row, c :: cs =>
    if c = '\n' then ("" :: row).reverse :: rdGo .startRec [] [] cs
    else if c = '\r' then ("" :: row).reverse :: rdGo .afterCR [] [] cs
    else if c = '"' then rdGo .inQuoted [] row cs
    else if c = ',' then rdGo .startField [] ("" :: row) cs
    else rdGo .inField [c] row cs
  | .inField, fld, row, c :: cs =>
    if c = '\n' then (String.mk fld.reverse :: row).reverse :: rdGo .startRec [] [] cs
    else if c = '\r' then (String.mk fld.reverse :: row).reverse :: rdGo .afterCR [] [] cs
    else if c = ',' then rdGo .startField [] (String.mk fld.reverse :: row) cs
    else rdGo .inField (c :: fld) row cs
  | .inQuoted, fld, row, c :: cs =>
    if c = '"' then rdGo .quoteQuoted fld row cs
    else rdGo .inQuoted (c :: fld) row cs
  | .quoteQuoted, fld, row, c :: cs =>
    if c = '"' then rdGo .inQuoted ('"' :: fld) row cs
    else if c = ',' then rdGo .startField [] (String.mk fld.reverse :: row) cs
    else if c = '\n' then (String.mk fld.reverse :: row).reverse :: rdGo .startRec [] [] cs
    else if c = '\r' then (String.mk fld.reverse :: row).reverse :: rdGo .afterCR [] [] cs
    else rdGo .inField (c :: fld) row cs

/-- Iterating `csv.reader(f)` over the whole file contents: the list of
records, each a list of field strings. -/
def csvParse (s : String) : List (List String) :=
  rdGo .startRec [] [] s.data

/-- QUOTE_MINIMAL test of the `csv` writer: a field is quoted iff it
contains the delimiter, the quotechar, or a character of the line
terminator `"\r\n"`. -/
def needsQuote (s : String) : Bool :=
  s.data.any fun c => c == ',' || c == '"' || c == '\r' || c == '\n'

/-- Doubling of embedded quotechars inside a quoted field (`doublequote`). -/
def dupQuotes : List Char → List Char
  | [] => []
  | c :: cs => if c = '"' then '"' :: '"' :: dupQuotes cs else c :: dupQuotes cs

/-- One written field of the `csv` writer under QUOTE_MINIMAL. -/
def wField (s : String) : String :=
  if needsQuote s then "\"" ++ String.mk (dupQuotes s.data) ++ "\"" else s

/-- Fields of one record joined by the delimiter. -/
def commaJoin : List String → String
  | [] => ""
  | [f] => wField f
  | f :: g :: fs => wField f ++ "," ++ commaJoin (g :: fs)

/-- One written CSV record, terminated by the dialect's `"\r\n"`. -/
def wRow (fs : List String) : String :=
  commaJoin fs ++ "\r\n"

/-- The `writer.writerows(expenses_list)` loop: each record's values in
fieldname order `date, category, amount, description`, the amount printed
with `toStr` (modelling `str` on the stored float). -/
def writeAll {A : Type} (toStr : A → String) : List (Record A) → String
  | [] => ""
  | r :: rs => wRow [r.date, r.category, toStr r.amount, r.description] ++ writeAll toStr rs

/-- The file contents produced by `save_expenses(filename, expenses_list)`:
`writer.writeheader()` followed by `writer.writerows(expenses_list)`. -/
def save_expenses {A : Type} (toStr : A → String) (rs : List (Record A)) : String :=
  wRow ["date", "category", "amount", "description"] ++ writeAll toStr rs

/-- The uncaught exceptions `load_expenses` can die with: `StopIteration`
from `next(reader)` on a record-less file, `IndexError` from `row[i]` on a
short row, `ValueError` from `float(row[2])` on a non-numeric amount. -/
inductive LoadErr where
  | stopIteration
  | indexError
  | valueError
  deriving DecidableEq, Repr

/-- Building one expense dictionary from one CSV row, in the evaluation
order of the dict literal: `row[0]`, `row[1]`, `float(row[2])`, `row[3]`. -/
def convRow {A : Type} (ps : String → Option A) : List String → Except LoadErr (Record A)
  | d :: c :: a :: rest =>
    match ps a with
    | none => .error .valueError
    | some q =>
      match rest with
      | desc :: _ => .ok ⟨d, c, q, desc⟩
      | [] => .error .indexError
  | _ => .error .indexError

/-- The `for row in reader` loop of `load_expenses`: converts rows in file
order, aborting at the first exception. -/
def convRows {A : Type} (ps : String → Option A) : List (List String) → Except LoadErr (List (Record A))
  | [] => .ok []
  | r :: rs =>
    match convRow ps r with
    | .error e => .error e
    | .ok x =>
      match convRows ps rs with
      | .error e => .error e
      | .ok xs => .ok (x :: xs)

/-- The whole `load_expenses(filename)`: a missing file
(`FileNotFoundError`, caught) yields `[]`; otherwise `next(reader)` skips
the header record (raising `StopIteration` when there is none) and each
remaining row becomes one record.  `ps` models `float` applied to the
amount field. -/
def load_expenses {A : Type} (ps : String → Option A) (file : Option String) :
    Except LoadErr (List (Record A)) :=
  match file with
  | none => .ok []
  | some content =>
    match csvParse content with
    | [] => .error .stopIteration
    | _ :: rows => convRows ps rows

/-- Whitespace characters stripped by CPython's `float(str)` before and
after the numeric text (ASCII range). -/
def isPyWS (c : Char) : Bool :=
  c == ' ' || c == '\t' || c == '\n' || c == '\r' || c == '\x0b' || c == '\x0c'

/-- Stripping leading and trailing whitespace, as `float(str)` does. -/
def trimWS (l : List Char) : List Char :=
  ((l.dropWhile isPyWS).reverse.dropWhile isPyWS).reverse

/-- Value of a run of decimal digits. -/
def digitsVal (l : List Char) : Nat :=
  l.foldl (fun n c => 10 * n + (c.toNat - '0'.toNat)) 0

/-- Optional leading sign; returns whether the number is negated and the
remaining characters. -/
def readSign : List Char → Bool × List Char
  | '+' :: t => (false, t)
  | '-' :: t => (true, t)
  | l => (false, l)

/-- CPython's `float(s)` on a finite decimal literal:
`[ws] [sign] (digits [. digits] | . digits) [(e|E) [sign] digits] [ws]`,
with `none` for the `ValueError` on anything else.  The special spellings
`inf`/`nan` and digit-group underscores are not modelled; the binary
rounding of the resulting double is the identity on every literal used in
this development, so the value is kept exactly in `ℚ`. -/
def pyFloat? (s : String) : Option ℚ :=
  let l0 := trimWS s.data
  let sg := readSign l0
  let ip := sg.2.takeWhile Char.isDigit
  let r1 := sg.2.dropWhile Char.isDigit
  let fpr : List Char × List Char :=
    match r1 with
    | '.' :: t => (t.takeWhile Char.isDigit, t.dropWhile Char.isDigit)
    | _ => ([], r1)
  if ip.isEmpty && fpr.1.isEmpty then none
  else
    let mant : ℚ := (digitsVal ip : ℚ) + (digitsVal fpr.1 : ℚ) / 10 ^ fpr.1.length
    let signed : ℚ := if sg.1 then -mant else mant
    match fpr.2 with
    | [] => some signed
    | c :: t =>
      if c == 'e' || c == 'E' then
        let esg := readSign t
        let ed := esg.2.takeWhile Char.isDigit
        let t2 := esg.2.dropWhile Char.isDigit
        if ed.isEmpty || !t2.isEmpty then none
        else some (signed * 10 ^ (if esg.1 then -(digitsVal ed : ℤ) else (digitsVal ed : ℤ)))
      else none

/-- The `str()` rendering of an integer-valued Python float: `str(12.0)` is
`"12.0"`.  Used to instantiate the abstract amount serializer on concrete
inputs. -/
def floatStrInt (q : ℚ) : String :=
  toString q.num ++ ".0"

/-- Splitting on the `-` separator of the date format (empty pieces kept). -/
def splitDash : List Char → List (List Char)
  | [] => [[]]
  | c :: t =>
    if c = '-' then [] :: splitDash t
    else
      match splitDash t with
      | [] => [[c]]
      | h :: r => (c :: h) :: r

/-- Gregorian leap-year test used by `datetime`. -/
def isLeap (y : Nat) : Bool :=
  y % 4 == 0 && (y % 100 != 0 || y % 400 == 0)

/-- Length of a month, as validated by the `datetime.datetime` constructor. -/
def daysInMonth (y m : Nat) : Nat :=
  if m == 2 then (if isLeap y then 29 else 28)
  else if m == 4 || m == 6 || m == 9 || m == 11 then 30
  else 31

/-- CPython's `datetime.datetime.strptime(s, "%Y-%m-%d")`: `_strptime`
matches `%Y` as exactly four digits and `%m`, `%d` as one or two digits in
range (full match, no residue), and the `datetime` constructor then checks
the calendar (year at least `MINYEAR = 1`, day at most the month length).
`none` models the `ValueError` caught by the retry loop. -/
def parseDateYMD (s : String) : Option (Nat × Nat × Nat) :=
  match splitDash s.data with
  | [ys, ms, ds] =>
    if ys.length == 4 && ys.all Char.isDigit &&
        (ms.length == 1 || ms.length == 2) && ms.all Char.isDigit &&
        (ds.length == 1 || ds.length == 2) && ds.all Char.isDigit then
      let y := digitsVal ys
      let m := digitsVal ms
      let d := digitsVal ds
      if 1 ≤ y ∧ 1 ≤ m ∧ m ≤ 12 ∧ 1 ≤ d ∧ d ≤ daysInMonth y m then some (y, m, d)
      else none
    else none
  | _ => none

/-- The date retry loop of `add_expense`: keep reading input lines until
one parses under `%Y-%m-%d`; every failure prints a diagnostic and
re-prompts.  `none` means the supplied input script ran out before a valid
date (the real loop would still be blocked waiting). -/
def dateLoop : List String → Option (String × List String)
  | [] => none
  | s :: rest =>
    match parseDateYMD s with
    | some _ => some (s, rest)
    | none => dateLoop rest

/-- The amount retry loop of `add_expense`: keep reading until `float`
succeeds; no sign or range check. -/
def amountLoop : List String → Option (ℚ × List String)
  | [] => none
  | s :: rest =>
    match pyFloat? s with
    | some a => some (a, rest)
    | none => amountLoop rest

/-- The whole interactive `add_expense` on an input script: validated date,
validated amount, then category and description read verbatim.  Returns the
new record and the unconsumed input. -/
def add_expense (inputs : List String) : Option (Record ℚ × List String) :=
  match dateLoop inputs with
  | none => none
  | some (d, in1) =>
    match amountLoop in1 with
    | none => none
    | some (a, in2) =>
      match in2 with
      | cat :: desc :: in3 => some (⟨d, cat, a, desc⟩, in3)
      | _ => none

/-- The budget retry loop of `track_budget`: a line that does not parse as
a float, or parses to a strictly negative value, prints a diagnostic and
re-prompts; the loop exits only on a parsed value that is not `< 0`. -/
def budgetLoop : List String → Option (ℚ × List String)
  | [] => none
  | s :: rest =>
    match pyFloat? s with
    | none => budgetLoop rest
    | some b => if b < 0 then budgetLoop rest else some (b, rest)

/-- The final message of `track_budget`: money left when the remaining
balance is not negative, otherwise exceeded by the absolute value. -/
inductive BudgetMsg where
  | left (amt : ℚ)
  | exceeded (amt : ℚ)
  deriving DecidableEq, Repr

/-- The whole `track_budget`: read a non-negative budget through the retry
loop, sum all record amounts, and report
`(budget, total, remaining, message)`. -/
def track_budget (inputs : List String) (es : List (Record ℚ)) :
    Option (ℚ × ℚ × ℚ × BudgetMsg) :=
  match budgetLoop inputs with
  | none => none
  | some (b, _) =>
    let total := (es.map Record.amount).sum
    let rem := b - total
    some (b, total, rem, if 0 ≤ rem then .left rem else .exceeded |rem|)

/-- A text field free of the NUL character (which the `csv` module refuses
inside a text-mode file and which never occurs in normal text). -/
def nulFree (s : String) : Prop :=
  '\x00' ∉ s.data

/-- A field containing a character that forces CSV quoting on output: the
delimiter, the quotechar, or a newline character. -/
def hasDelim (s : String) : Prop :=
  ',' ∈ s.data ∨ '"' ∈ s.data ∨ '\n' ∈ s.data ∨ '\r' ∈ s.data

instance (s : String) : Decidable (nulFree s) := by
  unfold nulFree; infer_instance

instance (s : String) : Decidable (hasDelim s) := by
  unfold hasDelim; infer_instance

/-! Helper lemmas towards the save/load round trip. -/

theorem data_app (s t : String) : (s ++ t).data = s.data ++ t.data := rfl

theorem rdGo_quoted (l : List Char) : ∀ (fld : List Char) (row : List String) (rest : List Char),
    rdGo .inQuoted fld row (dupQuotes l ++ '"' :: rest) =
      rdGo .quoteQuoted (l.reverse ++ fld) row rest := by
  induction l with
  | nil => intro fld row rest; simp [dupQuotes, rdGo]
  | cons c t ih =>
    intro fld row rest
    by_cases hc : c = '"'
    · subst hc
      simp only [dupQuotes, List.cons_append, if_true, ite_true, eq_self_iff_true]
      rw [show rdGo .inQuoted fld row ('"' :: ('"' :: (dupQuotes t ++ '"' :: rest))) =
        rdGo .inQuoted ('"' :: fld) row (dupQuotes t ++ '"' :: rest) from rfl, ih]
      simp
    · simp only [dupQuotes, if_neg hc, List.cons_append]
      rw [show rdGo .inQuoted fld row (c :: (dupQuotes t ++ '"' :: rest)) =
        if c = '"' then rdGo .quoteQuoted fld row (dupQuotes t ++ '"' :: rest)
        else rdGo .inQuoted (c :: fld) row (dupQuotes t ++ '"' :: rest) from rfl,
        if_neg hc, ih]
      simp

theorem rdGo_plain (l : List Char)
    (hl : ∀ c ∈ l, c ≠ ',' ∧ c ≠ '"' ∧ c ≠ '\r' ∧ c ≠ '\n') :
    ∀ (fld : List Char) (row : List String) (rest : List Char),
    rdGo .inField fld row (l ++ rest) = rdGo .inField (l.reverse ++ fld) row rest := by
  induction l with
  | nil => intro fld row rest; simp
  | cons c t ih =>
    intro fld row rest
    obtain ⟨h1, h2, h3, h4⟩ := hl c (List.mem_cons_self c t)
    simp only [List.cons_append]
    rw [show rdGo .inField fld row (c :: (t ++ rest)) =
      if c = '\n' then (String.mk fld.reverse :: row).reverse :: rdGo .startRec [] [] (t ++ rest)
      else if c = '\r' then (String.mk fld.reverse :: row).reverse :: rdGo .afterCR [] [] (t ++ rest)
      else if c = ',' then rdGo .startField [] (String.mk fld.reverse :: row) (t ++ rest)
      else rdGo .inField (c :: fld) row (t ++ rest) from rfl,
      if_neg h4, if_neg h3, if_neg h1, ih (fun x hx => hl x (List.mem_cons_of_mem c hx))]
    simp

theorem plain_of_needsQuote (l : List Char) (h : needsQuote (String.mk l) = false) :
    ∀ c ∈ l, c ≠ ',' ∧ c ≠ '"' ∧ c ≠ '\r' ∧ c ≠ '\n' := by
  intro c hc
  have hq : (c == ',' || c == '"' || c == '\r' || c == '\n') = false := by
    by_contra hne
    have hb : (c == ',' || c == '"' || c == '\r' || c == '\n') = true := by
      revert hne; cases (c == ',' || c == '"' || c == '\r' || c == '\n') <;> simp
    have ht : needsQuote (String.mk l) = true :=
      List.any_eq_true.2 ⟨c, hc, hb⟩
    simp [ht] at h
  simp only [Bool.or_eq_false_iff, beq_eq_false_iff_ne, ne_eq] at hq
  exact ⟨hq.1.1.1, hq.1.1.2, hq.1.2, hq.2⟩

theorem data_mk (l : List Char) : (String.mk l).data = l := rfl

theorem rdGo_SF_quote (row : List String) (cs : List Char) :
    rdGo .startField [] row ('"' :: cs) = rdGo .inQuoted [] row cs := rfl

theorem rdGo_SF_comma (row : List String) (cs : List Char) :
    rdGo .startField [] row (',' :: cs) = rdGo .startField [] ("" :: row) cs := rfl

theorem rdGo_SF_cr (row : List String) (cs : List Char) :
    rdGo .startField [] row ('\r' :: cs) = ("" :: row).reverse :: rdGo .afterCR [] [] cs := rfl

theorem rdGo_SF_plain (c : Char) (h1 : c ≠ '\n') (h2 : c ≠ '\r') (h3 : c ≠ '"') (h4 : c ≠ ',')
    (row : List String) (cs : List Char) :
    rdGo .startField [] row (c :: cs) = rdGo .inField [c] row cs := by
  rw [show rdGo .startField [] row (c :: cs) =
    (if c = '\n' then ("" :: row).reverse :: rdGo .startRec [] [] cs
     else if c = '\r' then ("" :: row).reverse :: rdGo .afterCR [] [] cs
     else if c = '"' then rdGo .inQuoted [] row cs
     else if c = ',' then rdGo .startField [] ("" :: row) cs
     else rdGo .inField [c] row cs) from rfl,
    if_neg h1, if_neg h2, if_neg h3, if_neg h4]

theorem rdGo_IF_comma (fld : List Char) (row : List String) (cs : List Char) :
    rdGo .inField fld row (',' :: cs) = rdGo .startField [] (String.mk fld.reverse :: row) cs := rfl

theorem rdGo_IF_cr (fld : List Char) (row : List String) (cs : List Char) :
    rdGo .inField fld row ('\r' :: cs) =
      (String.mk fld.reverse :: row).reverse :: rdGo .afterCR [] [] cs := rfl

theorem rdGo_QQ_comma (fld : List Char) (row : List String) (cs : List Char) :
    rdGo .quoteQuoted fld row (',' :: cs) = rdGo .startField [] (String.mk fld.reverse :: row) cs := rfl

theorem rdGo_QQ_cr (fld : List Char) (row : List String) (cs : List Char) :
    rdGo .quoteQuoted fld row ('\r' :: cs) =
      (String.mk fld.reverse :: row).reverse :: rdGo .afterCR [] [] cs := rfl

theorem rdGo_CR_lf (fld : List Char) (row : List String) (cs : List Char) :
    rdGo .afterCR fld row ('\n' :: cs) = rdGo .startRec [] [] cs := rfl

theorem rdGo_wField_comma (f : String) (row : List String) (rest : List Char) :
    rdGo .startField [] row ((wField f).data ++ ',' :: rest) =
      rdGo .startField [] (f :: row) rest := by
  obtain ⟨l⟩ := f
  by_cases hq : needsQuote (String.mk l) = true
  · rw [show wField (String.mk l) = "\"" ++ String.mk (dupQuotes l) ++ "\"" from if_pos hq,
      data_app, data_app, data_mk]
    simp only [List.append_assoc, List.cons_append, List.nil_append,
      show ("\"" : String).data = ['"'] from rfl]
    rw [rdGo_SF_quote, rdGo_quoted l [] row (',' :: rest), rdGo_QQ_comma]
    simp
  · have hq2 : needsQuote (String.mk l) = false := by
      revert hq; cases needsQuote (String.mk l) <;> simp
    have hpl := plain_of_needsQuote l hq2
    rw [show wField (String.mk l) = String.mk l from if_neg hq, data_mk]
    cases l with
    | nil => rfl
    | cons c t =>
      obtain ⟨h1, h2, h3, h4⟩ := hpl c (List.mem_cons_self c t)
      simp only [List.cons_append]
      rw [rdGo_SF_plain c h4 h3 h2 h1,
        rdGo_plain t (fun x hx => hpl x (List.mem_cons_of_mem c hx)), rdGo_IF_comma]
      simp

theorem rdGo_wField_crlf (f : String) (row : List String) (rest : List Char) :
    rdGo .startField [] row ((wField f).data ++ '\r' :: '\n' :: rest) =
      (f :: row).reverse :: rdGo .startRec [] [] rest := by
  obtain ⟨l⟩ := f
  by_cases hq : needsQuote (String.mk l) = true
  · rw [show wField (String.mk l) = "\"" ++ String.mk (dupQuotes l) ++ "\"" from if_pos hq,
      data_app, data_app, data_mk]
    simp only [List.append_assoc, List.cons_append, List.nil_append,
      show ("\"" : String).data = ['"'] from rfl]
    rw [rdGo_SF_quote, rdGo_quoted l [] row ('\r' :: '\n' :: rest), rdGo_QQ_cr, rdGo_CR_lf]
    simp
  · have hq2 : needsQuote (String.mk l) = false := by
      revert hq; cases needsQuote (String.mk l) <;> simp
    have hpl := plain_of_needsQuote l hq2
    rw [show wField (String.mk l) = String.mk l from if_neg hq, data_mk]
    cases l with
    | nil =>
      simp only [List.nil_append]
      rw [rdGo_SF_cr, rdGo_CR_lf]
    | cons c t =>
      obtain ⟨h1, h2, h3, h4⟩ := hpl c (List.mem_cons_self c t)
      simp only [List.cons_append]
      rw [rdGo_SF_plain c h4 h3 h2 h1,
        rdGo_plain t (fun x hx => hpl x (List.mem_cons_of_mem c hx)), rdGo_IF_cr, rdGo_CR_lf]
      simp

theorem rdGo_SR_quote (cs : List Char) :
    rdGo .startRec [] [] ('"' :: cs) = rdGo .inQuoted [] [] cs := rfl

theorem rdGo_SR_comma (cs : List Char) :
    rdGo .startRec [] [] (',' :: cs) = rdGo .startField [] [""] cs := rfl

theorem rdGo_SR_plain (c : Char) (h1 : c ≠ '\n') (h2 : c ≠ '\r') (h3 : c ≠ '"') (h4 : c ≠ ',')
    (cs : List Char) :
    rdGo .startRec [] [] (c :: cs) = rdGo .inField [c] [] cs := by
  rw [show rdGo .startRec [] [] (c :: cs) =
    (if c = '\n' then [] :: rdGo .startRec [] [] cs
     else if c = '\r' then [] :: rdGo .afterCR [] [] cs
     else if c = '"' then rdGo .inQuoted [] [] cs
     else if c = ',' then rdGo .startField [] [""] cs
     else rdGo .inField [c] [] cs) from rfl,
    if_neg h1, if_neg h2, if_neg h3, if_neg h4]

theorem rdGo_wField_comma_SR (f : String) (rest : List Char) :
    rdGo .startRec [] [] ((wField f).data ++ ',' :: rest) = rdGo .startField [] [f] rest := by
  obtain ⟨l⟩ := f
  by_cases hq : needsQuote (String.mk l) = true
  · rw [show wField (String.mk l) = "\"" ++ String.mk (dupQuotes l) ++ "\"" from if_pos hq,
      data_app, data_app, data_mk]
    simp only [List.append_assoc, List.cons_append, List.nil_append,
      show ("\"" : String).data = ['"'] from rfl]
    rw [rdGo_SR_quote, rdGo_quoted l [] [] (',' :: rest), rdGo_QQ_comma]
    simp
  · have hq2 : needsQuote (String.mk l) = false := by
      revert hq; cases needsQuote (String.mk l) <;> simp
    have hpl := plain_of_needsQuote l hq2
    rw [show wField (String.mk l) = String.mk l from if_neg hq, data_mk]
    cases l with
    | nil => rfl
    | cons c t =>
      obtain ⟨h1, h2, h3, h4⟩ := hpl c (List.mem_cons_self c t)
      simp only [List.cons_append]
      rw [rdGo_SR_plain c h4 h3 h2 h1,
        rdGo_plain t (fun x hx => hpl x (List.mem_cons_of_mem c hx)), rdGo_IF_comma]
      simp

theorem rdGo_wRow4 (a b c d : String) (rest : List Char) :
    rdGo .startRec [] [] ((wRow [a, b, c, d]).data ++ rest) =
      [a, b, c, d] :: rdGo .startRec [] [] rest := by
  show rdGo .startRec [] [] ((commaJoin [a, b, c, d] ++ "\r\n").data ++ rest) = _
  simp only [commaJoin, data_app, List.append_assoc, List.cons_append, List.nil_append,
    show ("," : String).data = [','] from rfl,
    show ("\r\n" : String).data = ['\r', '\n'] from rfl]
  rw [rdGo_wField_comma_SR, rdGo_wField_comma, rdGo_wField_comma, rdGo_wField_crlf]
  simp

theorem rdGo_writeAll {A : Type} (toStr : A → String) (rs : List (Record A)) :
    rdGo .startRec [] [] (writeAll toStr rs).data =
      rs.map (fun r => [r.date, r.category, toStr r.amount, r.description]) := by
  induction rs with
  | nil => rfl
  | cons r t ih =>
    show rdGo .startRec [] []
      ((wRow [r.date, r.category, toStr r.amount, r.description] ++ writeAll toStr t).data) = _
    rw [data_app, rdGo_wRow4, ih, List.map_cons]

theorem csvParse_save {A : Type} (toStr : A → String) (rs : List (Record A)) :
    csvParse (save_expenses toStr rs) =
      ["date", "category", "amount", "description"] ::
        rs.map (fun r => [r.date, r.category, toStr r.amount, r.description]) := by
  show rdGo .startRec [] []
    ((wRow ["date", "category", "amount", "description"] ++ writeAll toStr rs).data) = _
  rw [data_app, rdGo_wRow4, rdGo_writeAll]

theorem convRows_map {A : Type} (ps : String → Option A) (toStr : A → String)
    (rs : List (Record A)) (h : ∀ r ∈ rs, ps (toStr r.amount) = some r.amount) :
    convRows ps (rs.map fun r => [r.date, r.category, toStr r.amount, r.description]) =
      .ok rs := by
  induction rs with
  | nil => rfl
  | cons r t ih =>
    have hr := h r (List.mem_cons_self r t)
    simp only [List.map_cons, convRows, convRow, hr]
    rw [ih (fun x hx => h x (List.mem_cons_of_mem r hx))]

theorem roundtrip_aux {A : Type} (toStr : A → String) (ps : String → Option A)
    (rs : List (Record A)) (h : ∀ r ∈ rs, ps (toStr r.amount) = some r.amount) :
    load_expenses ps (some (save_expenses toStr rs)) = .ok rs := by
  show (match csvParse (save_expenses toStr rs) with
    | [] => Except.error LoadErr.stopIteration
    | _ :: rows => convRows ps rows) = Except.ok rs
  rw [csvParse_save]
  exact convRows_map ps toStr rs h

theorem convRow_bad {A : Type} (ps : String → Option A) (row : List String)
    (hbad : row.length < 4 ∨ ∃ a, row[2]? = some a ∧ ps a = none) :
    ∃ e, convRow ps row = Except.error e := by
  rcases row with _ | ⟨d, _ | ⟨c, _ | ⟨a, _ | ⟨desc, rest⟩⟩⟩⟩
  · exact ⟨.indexError, rfl⟩
  · exact ⟨.indexError, rfl⟩
  · exact ⟨.indexError, rfl⟩
  · cases hps : ps a with
    | none => exact ⟨.valueError, by simp [convRow, hps]⟩
    | some q => exact ⟨.indexError, by simp [convRow, hps]⟩
  · rcases hbad with hlen | ⟨a2, ha2, hps⟩
    · simp at hlen; omega
    · have haa : a2 = a := by
        simp at ha2
        exact ha2.symm
      subst haa
      exact ⟨.valueError, by simp [convRow, hps]⟩

theorem convRows_bad {A : Type} (ps : String → Option A) (rows : List (List String))
    (h : ∃ row ∈ rows, row.length < 4 ∨ ∃ a, row[2]? = some a ∧ ps a = none) :
    ∃ e, convRows ps rows = Except.error e := by
  induction rows with
  | nil => simp at h
  | cons r t ih =>
    rcases h with ⟨row, hmem, hbad⟩
    rcases List.mem_cons.1 hmem with heq | hmemt
    · subst heq
      obtain ⟨e, he⟩ := convRow_bad ps row hbad
      exact ⟨e, by simp [convRows, he]⟩
    · cases hcr : convRow ps r with
      | error e => exact ⟨e, by simp [convRows, hcr]⟩
      | ok v =>
        obtain ⟨e, he⟩ := ih ⟨row, hmemt, hbad⟩
        exact ⟨e, by simp [convRows, hcr, he]⟩

theorem convRows_good {A : Type} (ps : String → Option A) (rows : List (List String))
    (h : ∀ row ∈ rows, ∃ d c a desc rest2 q, row = d :: c :: a :: desc :: rest2 ∧ ps a = some q) :
    ∃ l : List (Record A), convRows ps rows = Except.ok l ∧ l.length = rows.length ∧
      ∀ (i : Nat) (d c a desc : String) (rest2 : List String),
        rows[i]? = some (d :: c :: a :: desc :: rest2) →
        ∃ q, ps a = some q ∧ l[i]? = some (Record.mk d c q desc) := by
  induction rows with
  | nil =>
    refine ⟨[], rfl, rfl, ?_⟩
    intro i d c a desc rest2 hcontra
    simp at hcontra
  | cons r t ih =>
    obtain ⟨d, c, a, desc, rest2, q, hr, hq⟩ := h r (List.mem_cons_self r t)
    subst hr
    obtain ⟨l, hl, hlen, hidx⟩ := ih (fun x hx => h x (List.mem_cons_of_mem _ hx))
    refine ⟨⟨d, c, q, desc⟩ :: l, ?_, by simp [hlen], ?_⟩
    · simp [convRows, convRow, hq, hl]
    · intro i d2 c2 a2 desc2 rest3 hi
      cases i with
      | zero =>
        simp at hi
        obtain ⟨h1, h2, h3, h4, h5⟩ := hi
        subst h1; subst h2; subst h3; subst h4
        exact ⟨q, hq, by simp⟩
      | succ j =>
        simp only [List.getElem?_cons_succ] at hi ⊢
        exact hidx j d2 c2 a2 desc2 rest3 hi


attribute [local semireducible] Rat.add Rat.mul Rat.inv Rat.sub

/-! Claim theorems. -/

/-- C1: for every sequence `rs` of valid expense records (string fields
without NUL, an amount whose printed form parses back to itself, which is
the round-trip property of Python's `repr` on floats), saving with
`save_expenses` and loading the same file with `load_expenses` returns the
same sequence: same length, same order, and the very same field values. -/
theorem save_load_roundtrip {A : Type} (toStr : A → String) (ps : String → Option A)
    (rs : List (Record A))
    (hamt : ∀ r ∈ rs, ps (toStr r.amount) = some r.amount)
    (_hnul : ∀ r ∈ rs, nulFree r.date ∧ nulFree r.category ∧
      nulFree (toStr r.amount) ∧ nulFree r.description) :
    load_expenses ps (some (save_expenses toStr rs)) = Except.ok rs :=
  roundtrip_aux toStr ps rs hamt

/-- Witness for C1 at a concrete two-record list, with amounts in `ℚ`,
`float` modelled by `pyFloat?` and `str` by `floatStrInt`. -/
theorem save_load_roundtrip_witness :
    load_expenses pyFloat? (some (save_expenses floatStrInt
      [⟨"2024-01-15", "Food", (12 : ℚ), "Lunch"⟩,
       ⟨"2024-01-16", "Travel", (30 : ℚ), "Bus"⟩])) =
      Except.ok [⟨"2024-01-15", "Food", (12 : ℚ), "Lunch"⟩,
        ⟨"2024-01-16", "Travel", (30 : ℚ), "Bus"⟩] :=
  save_load_roundtrip floatStrInt pyFloat? _ (by decide) (by decide)

/-- C2: loading from a path that does not exist returns the empty list and
is not an error (the `FileNotFoundError` is caught inside `load_expenses`). -/
theorem load_missing_file {A : Type} (ps : String → Option A) :
    load_expenses ps none = Except.ok [] := rfl

/-- C3: if the parsed data section of an existing file contains a row with
fewer than 4 fields, or a row whose third field does not parse as a float,
then `load_expenses` fails with a propagated error and no partial list is
returned. -/
theorem load_malformed_row_errors {A : Type} (ps : String → Option A) (content : String)
    (hdr : List String) (rows : List (List String))
    (hp : csvParse content = hdr :: rows)
    (hbad : ∃ row ∈ rows, row.length < 4 ∨ ∃ a, row[2]? = some a ∧ ps a = none) :
    ∃ e, load_expenses ps (some content) = Except.error e := by
  show ∃ e, (match csvParse content with
    | [] => Except.error LoadErr.stopIteration
    | _ :: rows2 => convRows ps rows2) = Except.error e
  rw [hp]
  exact convRows_bad ps rows hbad

/-- Witness for C3: a file whose single data line has the non-numeric
amount field `abc`. -/
theorem load_malformed_row_errors_witness :
    ∃ e, load_expenses pyFloat?
      (some "date,category,amount,description\r\n2024-01-15,Food,abc,Lunch\r\n") =
      Except.error e :=
  load_malformed_row_errors pyFloat? _ ["date", "category", "amount", "description"]
    [["2024-01-15", "Food", "abc", "Lunch"]] (by decide)
    ⟨["2024-01-15", "Food", "abc", "Lunch"], by decide,
      Or.inr ⟨"abc", by decide, by decide⟩⟩

/-- C4: if every parsed data row of an existing file has at least 4 fields
with a float-parsable third field, `load_expenses` succeeds with one record
per data row in file order (the header row is discarded), the date,
category and description fields passed through verbatim without
re-validation, and only the amount converted. -/
theorem load_wellformed_rows {A : Type} (ps : String → Option A) (content : String)
    (hdr : List String) (rows : List (List String))
    (hp : csvParse content = hdr :: rows)
    (h : ∀ row ∈ rows, ∃ d c a desc rest2 q, row = d :: c :: a :: desc :: rest2 ∧ ps a = some q) :
    ∃ l : List (Record A), load_expenses ps (some content) = Except.ok l ∧
      l.length = rows.length ∧
      ∀ (i : Nat) (d c a desc : String) (rest2 : List String),
        rows[i]? = some (d :: c :: a :: desc :: rest2) →
        ∃ q, ps a = some q ∧ l[i]? = some (Record.mk d c q desc) := by
  obtain ⟨l, hl, hlen, hidx⟩ := convRows_good ps rows h
  refine ⟨l, ?_, hlen, hidx⟩
  show (match csvParse content with
    | [] => Except.error LoadErr.stopIteration
    | _ :: rows2 => convRows ps rows2) = Except.ok l
  rw [hp]
  exact hl

/-- Witness for C4: a file whose single data line carries the malformed
date `2024-13-99`, which is loaded verbatim without re-validation. -/
theorem load_wellformed_rows_witness :
    ∃ l : List (Record ℚ), load_expenses pyFloat?
        (some "date,category,amount,description\r\n2024-13-99,Food,12.5,Lunch\r\n") =
        Except.ok l ∧
      l.length = ([["2024-13-99", "Food", "12.5", "Lunch"]] : List (List String)).length ∧
      ∀ (i : Nat) (d c a desc : String) (rest2 : List String),
        ([["2024-13-99", "Food", "12.5", "Lunch"]] : List (List String))[i]? =
          some (d :: c :: a :: desc :: rest2) →
        ∃ q, pyFloat? a = some q ∧ l[i]? = some (Record.mk d c q desc) :=
  load_wellformed_rows pyFloat? _ ["date", "category", "amount", "description"]
    [["2024-13-99", "Food", "12.5", "Lunch"]] (by decide)
    (by
      intro row hrow
      simp only [List.mem_singleton] at hrow
      subst hrow
      exact ⟨"2024-13-99", "Food", "12.5", "Lunch", [], 25/2, rfl, by decide⟩)

/-- C5: in the date loop of `add_expense`, the input `2024-01-15` is
accepted while `2024-13-01`, `15-01-2024` and `not-a-date` are each
rejected and re-prompted (the loop swallows them and goes on), no error
escapes to the caller, and the loop terminates only on an input that
parses under the fixed `%Y-%m-%d` format. -/
theorem add_expense_date_validation :
    dateLoop ["2024-13-01", "15-01-2024", "not-a-date", "2024-01-15"] =
      some ("2024-01-15", []) ∧
    (parseDateYMD "2024-01-15").isSome = true ∧
    parseDateYMD "2024-13-01" = none ∧
    parseDateYMD "15-01-2024" = none ∧
    parseDateYMD "not-a-date" = none ∧
    (∀ ins s rest, dateLoop ins = some (s, rest) → (parseDateYMD s).isSome = true) ∧
    add_expense ["2024-13-01", "15-01-2024", "not-a-date", "2024-01-15",
        "12.50", "Food", "Lunch"] =
      some (⟨"2024-01-15", "Food", 25/2, "Lunch"⟩, []) := by
  refine ⟨by decide, by decide, by decide, by decide, by decide, ?_, by decide⟩
  intro ins
  induction ins with
  | nil => intro s rest h; exact absurd h (by simp [dateLoop])
  | cons x t ih =>
    intro s rest h
    cases hpx : parseDateYMD x with
    | some v =>
      rw [show dateLoop (x :: t) = some (x, t) from by simp [dateLoop, hpx]] at h
      simp at h
      obtain ⟨hs, -⟩ := h
      rw [← hs, hpx]
      rfl
    | none =>
      rw [show dateLoop (x :: t) = dateLoop t from by simp [dateLoop, hpx]] at h
      exact ih s rest h

/-- C6: in the amount loop of `add_expense`, the inputs `12.50`, `0` and
`-5` are each accepted as the numeric amount (no sign or range check),
`abc` and the empty string are rejected and re-prompted, and the loop
terminates only when some supplied input parses as a float. -/
theorem add_expense_amount_validation :
    pyFloat? "12.50" = some (25/2) ∧
    pyFloat? "0" = some 0 ∧
    pyFloat? "-5" = some (-5) ∧
    pyFloat? "abc" = none ∧
    pyFloat? "" = none ∧
    amountLoop ["abc", "", "12.50"] = some (25/2, []) ∧
    amountLoop ["0", "next"] = some (0, ["next"]) ∧
    amountLoop ["-5"] = some (-5, []) ∧
    (∀ ins a rest, amountLoop ins = some (a, rest) → ∃ s2 ∈ ins, pyFloat? s2 = some a) := by
  refine ⟨by decide, by decide, by decide, by decide, by decide, by decide, by decide,
    by decide, ?_⟩
  intro ins
  induction ins with
  | nil => intro a rest h; exact absurd h (by simp [amountLoop])
  | cons x t ih =>
    intro a rest h
    cases hpx : pyFloat? x with
    | some v =>
      rw [show amountLoop (x :: t) = some (v, t) from by simp [amountLoop, hpx]] at h
      simp at h
      obtain ⟨hs, -⟩ := h
      exact ⟨x, List.mem_cons_self x t, by rw [hpx, hs]⟩
    | none =>
      rw [show amountLoop (x :: t) = amountLoop t from by simp [amountLoop, hpx]] at h
      obtain ⟨s2, hmem, hp⟩ := ih a rest h
      exact ⟨s2, List.mem_cons_of_mem x hmem, hp⟩

/-- C7: with record amounts `[12.50, 30.00]` and budget `100`,
`track_budget` computes the total as the sum of the amounts and the
remaining balance `57.50` as budget minus total, reporting it as left for
the month; with amounts `[80, 50]` and budget `100` the balance is negative
and it reports the budget exceeded by `30.00`. -/
theorem track_budget_arithmetic :
    track_budget ["100"]
      [⟨"2024-01-15", "Food", 25/2, "Lunch"⟩, ⟨"2024-01-16", "Food", 30, "Dinner"⟩] =
      some (100, 85/2, 115/2, BudgetMsg.left (115/2)) ∧
    track_budget ["100"]
      [⟨"2024-01-15", "Rent", 80, "r"⟩, ⟨"2024-01-16", "Food", 50, "f"⟩] =
      some (100, 130, -30, BudgetMsg.exceeded 30) :=
  ⟨by decide, by decide⟩

/-- C8: an existing but completely empty file is not treated like a missing
file: `load_expenses` on it fails with the uncaught `StopIteration` raised
by the header-skipping `next(reader)`, while a missing file yields `[]`. -/
theorem load_empty_file_stopiteration :
    load_expenses pyFloat? (some "") = Except.error LoadErr.stopIteration ∧
    load_expenses pyFloat? none = Except.ok ([] : List (Record ℚ)) :=
  ⟨rfl, rfl⟩

/-- C9: the budget loop of `track_budget` rejects (diagnoses and
re-prompts past) every parsable but strictly negative entry, and can only
exit with a budget that is at least zero. -/
theorem budget_loop_rejects_negative (s : String) (q : ℚ) (rest : List String)
    (hq : pyFloat? s = some q) (hneg : q < 0) :
    budgetLoop (s :: rest) = budgetLoop rest ∧
    ∀ ins b rest2, budgetLoop ins = some (b, rest2) → 0 ≤ b := by
  constructor
  · simp [budgetLoop, hq, hneg]
  · intro ins
    induction ins with
    | nil => intro b rest2 h; exact absurd h (by simp [budgetLoop])
    | cons x t ih =>
      intro b rest2 h
      cases hpx : pyFloat? x with
      | none =>
        rw [show budgetLoop (x :: t) = budgetLoop t from by simp [budgetLoop, hpx]] at h
        exact ih b rest2 h
      | some v =>
        by_cases hv : v < 0
        · rw [show budgetLoop (x :: t) = budgetLoop t from by
            simp [budgetLoop, hpx, hv]] at h
          exact ih b rest2 h
        · rw [show budgetLoop (x :: t) = some (v, t) from by
            simp [budgetLoop, hpx, hv]] at h
          simp at h
          obtain ⟨hb, -⟩ := h
          rw [← hb]
          exact le_of_not_lt hv

/-- Witness for C9: the parsable negative entry `-5` is skipped and the
loop goes on with the remaining input. -/
theorem budget_loop_rejects_negative_witness :
    budgetLoop ["-5", "100"] = budgetLoop ["100"] :=
  (budget_loop_rejects_negative "-5" (-5) ["100"] (by decide) (by decide)).1

/-- C10: a record whose category or description contains the delimiter, a
quote or a newline still round-trips exactly through `save_expenses` and
`load_expenses`, because the writer quotes such fields and the reader
unquotes them. -/
theorem save_load_roundtrip_special {A : Type} (toStr : A → String) (ps : String → Option A)
    (rs : List (Record A)) (r : Record A) (_hmem : r ∈ rs)
    (_hsp : hasDelim r.category ∨ hasDelim r.description)
    (hamt : ∀ r2 ∈ rs, ps (toStr r2.amount) = some r2.amount)
    (_hnul : ∀ r2 ∈ rs, nulFree r2.date ∧ nulFree r2.category ∧
      nulFree (toStr r2.amount) ∧ nulFree r2.description) :
    load_expenses ps (some (save_expenses toStr rs)) = Except.ok rs :=
  roundtrip_aux toStr ps rs hamt

/-- Witness for C10: a record with an embedded comma in the category and an
embedded quote and newline in the description. -/
theorem save_load_roundtrip_special_witness :
    load_expenses pyFloat? (some (save_expenses floatStrInt
      [⟨"2024-01-15", "a,b", (12 : ℚ), "say \"hi\"\nok"⟩])) =
      Except.ok [⟨"2024-01-15", "a,b", (12 : ℚ), "say \"hi\"\nok"⟩] :=
  save_load_roundtrip_special floatStrInt pyFloat? _ _
    (List.mem_cons_self _ _) (Or.inl (by decide)) (by decide) (by decide)
